import Mathlib

/-!
Shallow embedding of the frame-analysis code in `src/limda/analyze_frame.py`
(class `AnalyzeFrame`) and, for comparison, the older
`src/limda/analize_frame.py` (class `AnalizeFrame`).

Modelling conventions:
* Python floats are modelled as exact rationals (`ℚ`).
* Python dicts are modelled as insertion-ordered association lists
  (`List (K × V)`): lookup returns the first binding, assignment overwrites
  an existing binding in place or appends a fresh one at the end, exactly
  as CPython dicts behave observably.
* The external Cython routines `get_neighbor_list_using_cython` and
  `get_mols_list_using_cython` are not part of this repository's sources;
  every statement below is parameterised by their outputs (a neighbor list,
  a molecule grouping).  `get_neighbor_list` is therefore embedded up to the
  point where it calls the Cython routine: it returns the pair of arguments
  (`mesh_length`, `bond_length`) that the Python code hands to that call,
  or the Python exception raised before the call.
* Python exceptions are modelled by `Except PyErr`: `assertError` for a
  failed `assert`, `typeError` for operations on `None` (`len(None)`,
  `None + 0.01`, comparing `None`s inside `max`), `valueError` for
  `max([])`.
-/

/-- Python exception kinds that `AnalyzeFrame.get_neighbor_list` can raise
before reaching the Cython neighbor search. -/
inductive PyErr where
  | assertError (msg : String)
  | typeError
  | valueError
deriving DecidableEq, Repr

/-- The fields of an `AnalyzeFrame` object that `get_neighbor_list` reads,
apart from the raw atom data (which is only forwarded to the Cython call):
`len(self.atom_symbol_to_type)`, the `limda_default` dictionary entries
for the keys named by the two modes, and `self.cell`. -/
structure FrameConfig where
  atomTypeNum : Nat
  defaultCutOff : Option ℚ
  defaultBondLength : Option (List (List ℚ))
  cell : ℚ × ℚ × ℚ
deriving Repr

/-- `min(self.cell)` for the three cell axis lengths. -/
def minCell (c : ℚ × ℚ × ℚ) : ℚ :=
  min c.1 (min c.2.1 c.2.2)

/-- Python `max` on a list: `ValueError` on the empty list, otherwise the
left fold of the binary max over the remaining elements. -/
def pyMax (l : List ℚ) : Except PyErr ℚ :=
  match l with
  | [] => .error .valueError
  | x :: xs => .ok (xs.foldl max x)

/-- Left-to-right effectful map over `Except`, as `list(map(f, xs))`
evaluates in Python: the first exception raised propagates. -/
def listMapExcept {α β : Type} (f : α → Except PyErr β) : List α → Except PyErr (List β)
  | [] => .ok []
  | a :: as =>
    match f a, listMapExcept f as with
    | .ok b, .ok bs => .ok (b :: bs)
    | .error e, _ => .error e
    | .ok _, .error e => .error e

/-- `max(list(map(lambda x: max(x), bond_length)))`. -/
def bondLengthMax (bl : List (List ℚ)) : Except PyErr ℚ :=
  match listMapExcept pyMax bl with
  | .error e => .error e
  | .ok rowMaxes => pyMax rowMaxes

/-- `AnalyzeFrame.get_neighbor_list`, embedded up to the call of
`get_neighbor_list_using_cython`: on success it returns the pair
(`mesh_length`, `bond_length`) passed to that call; on failure, the Python
exception raised before it.  The `None` checks mirror the Python control
flow: in `"bond_length"` mode an unresolvable matrix hits `len(None)`
(`TypeError`); in `"cut_off"` mode an unresolvable cutoff builds a matrix
of `None`s whose `max`/`+ 0.01` raises `TypeError` (or `ValueError` via
`max([])` when there are zero atom types). -/
def get_neighbor_list (cfg : FrameConfig) (mode : String) (cut_off : Option ℚ)
    (bond_length : Option (List (List ℚ))) : Except PyErr (ℚ × List (List ℚ)) :=
  if mode = "bond_length" ∨ mode = "cut_off" then
    let atom_type_num := cfg.atomTypeNum
    let blE : Except PyErr (List (List ℚ)) :=
      if mode = "bond_length" then
        match (match bond_length with
               | none => cfg.defaultBondLength
               | some bl => some bl) with
        | none => .error .typeError
        | some bl =>
          if bl.length = atom_type_num then
            if bl.all (fun bond_list => bond_list.length = atom_type_num) then
              .ok bl
            else .error (.assertError ("Incorrect format of bond length"))
          else .error (.assertError ("Incorrect format of bond length"))
      else
        match (match cut_off with
               | none => cfg.defaultCutOff
               | some c => some c) with
        | none =>
          if atom_type_num = 0 then .error .valueError else .error .typeError
        | some c =>
          .ok (List.replicate atom_type_num (List.replicate atom_type_num c))
    match blE with
    | .error e => .error e
    | .ok bl =>
      match bondLengthMax bl with
      | .error e => .error e
      | .ok m =>
        let mesh_length := m + 1 / 100
        let mesh_length :=
          if mesh_length * 3 > minCell cfg.cell then minCell cfg.cell / 3
          else mesh_length
        .ok (mesh_length, bl)
  else .error (.assertError ("Please configure mode"))

/-! ## Python dict model -/

/-- First binding of a key in an insertion-ordered dict. -/
def dictGet? {K V : Type} [DecidableEq K] (d : List (K × V)) (k : K) : Option V :=
  (d.find? (fun p => decide (p.1 = k))).map Prod.snd

/-- `d[k] = v`: overwrite an existing binding in place, otherwise append. -/
def dictInsert {K V : Type} [DecidableEq K] (d : List (K × V)) (k : K) (v : V) :
    List (K × V) :=
  if (dictGet? d k).isSome then
    d.map (fun p => if p.1 = k then (k, v) else p)
  else d ++ [(k, v)]

/-- The `if k not in d: d[k] = 0` / `d[k] += 1` idiom. -/
def dictBump {K : Type} [DecidableEq K] (d : List (K × Nat)) (k : K) : List (K × Nat) :=
  dictInsert d k ((dictGet? d k).getD 0 + 1)

/-- Sum of a dict's values. -/
def sumValues {K : Type} (d : List (K × Nat)) : Nat :=
  (d.map Prod.snd).sum

/-! ## count_bonds -/

/-- Increment one entry of the `count_bonds_list` matrix. -/
def bumpMat (m : Nat → Nat → Nat) (a b : Nat) : Nat → Nat → Nat :=
  fun x y => if x = a ∧ y = b then m x y + 1 else m x y

/-- The `count_bonds_list` matrix of `AnalyzeFrame.count_bonds`: for every
atom pair `i < j` with `j` in `neighbor_list[i]`, the entry at
(`type_i - 1`, `type_j - 1`) is incremented, with no reordering of the two
types. -/
def countBondsMat (n : Nat) (atomTypes : Nat → Nat) (nl : List (List Nat)) :
    Nat → Nat → Nat :=
  (List.range n).foldl (fun m i =>
    (nl.getD i []).foldl (fun m2 j =>
      if i < j then bumpMat m2 (atomTypes i - 1) (atomTypes j - 1) else m2) m)
    (fun _ _ => 0)

/-- `AnalyzeFrame.count_bonds`, parameterised by the neighbor list the
Cython search returned.  The output dict enumerates the keys
`Symbol-Symbol` for type pairs `atom_i_type ≤ atom_j_type` and reads only
the upper triangle of `count_bonds_list`. -/
def count_bonds (T : Nat) (atom_type_to_symbol : Nat → String)
    (atomTypes : Nat → Nat) (n : Nat) (nl : List (List Nat)) : List (String × Nat) :=
  let mat := countBondsMat n atomTypes nl
  (List.range T).foldl (fun d a =>
    (List.range (T - a)).foldl (fun d2 b =>
      dictInsert d2
        (atom_type_to_symbol (a + 1) ++ "-" ++ atom_type_to_symbol (a + 1 + b))
        (mat a (a + b))) d) []

/-! ## get_edge_index -/

/-- `AnalyzeFrame.get_edge_index`, parameterised by the neighbor list: two
parallel lists built by appending (`atom_idx`, `neighbor_atom_idx`) for
every `atom_idx < neighbor_atom_idx`. -/
def get_edge_index (n : Nat) (nl : List (List Nat)) : List Nat × List Nat :=
  (List.range n).foldl (fun ei i =>
    (nl.getD i []).foldl (fun ei2 j =>
      if i < j then (ei2.1 ++ [i], ei2.2 ++ [j]) else ei2) ei)
    ([], [])

/-- The ordered-pair list underlying `get_edge_index` (proof companion). -/
def bondPairs (n : Nat) (nl : List (List Nat)) : List (Nat × Nat) :=
  (List.range n).flatMap (fun i =>
    ((nl.getD i []).filter (fun j => decide (i < j))).map (fun j => (i, j)))

/-! ## count_mols (new and old) -/

/-- The per-molecule `atom_type_count` list: a length-`T` counter list with
`atom_type_count[type - 1] += 1` for every atom of the molecule. -/
def atomTypeCount (T : Nat) (atomTypes : Nat → Nat) (mol : List Nat) : List Nat :=
  mol.foldl (fun acc idx =>
    acc.set (atomTypes idx - 1) (acc.getD (atomTypes idx - 1) 0 + 1))
    (List.replicate T 0)

/-- The `mols_count_tmp` dict: composition tuple → number of molecules. -/
def molsCountTmp (T : Nat) (atomTypes : Nat → Nat) (molsList : List (List Nat)) :
    List (List Nat × Nat) :=
  molsList.foldl (fun d mol => dictBump d (atomTypeCount T atomTypes mol)) []

/-- The formula string of `AnalyzeFrame.count_mols` (and `get_mols_dict`):
for each type id in ascending order, skip zero counts and append
`symbol` immediately followed by the count. -/
def molStr (T : Nat) (atom_type_to_symbol : Nat → String) (c : List Nat) : String :=
  (List.range T).foldl (fun s t =>
    if c.getD t 0 = 0 then s
    else s ++ atom_type_to_symbol (t + 1) ++ toString (c.getD t 0)) ""

/-- `AnalyzeFrame.count_mols`, parameterised by the molecule grouping the
Cython connectivity routine returned. -/
def count_mols (T : Nat) (atom_type_to_symbol : Nat → String)
    (atomTypes : Nat → Nat) (molsList : List (List Nat)) : List (String × Nat) :=
  (molsCountTmp T atomTypes molsList).foldl
    (fun d p => dictInsert d (molStr T atom_type_to_symbol p.1) p.2) []

/-- The formula string of the older `AnalizeFrame.count_mols`: identical
except that from the second nonzero type on, the piece is prefixed with a
single space. -/
def molStrOld (T : Nat) (atom_type_to_symbol : Nat → String) (c : List Nat) : String :=
  (List.range T).foldl (fun s t =>
    if c.getD t 0 = 0 then s
    else if s = "" then atom_type_to_symbol (t + 1) ++ toString (c.getD t 0)
    else s ++ " " ++ atom_type_to_symbol (t + 1) ++ toString (c.getD t 0)) ""

/-- `AnalizeFrame.count_mols` (the older spelling), parameterised by the
same molecule grouping. -/
def count_mols_old (T : Nat) (atom_type_to_symbol : Nat → String)
    (atomTypes : Nat → Nat) (molsList : List (List Nat)) : List (String × Nat) :=
  (molsCountTmp T atomTypes molsList).foldl
    (fun d p => dictInsert d (molStrOld T atom_type_to_symbol p.1) p.2) []

/-! ## get_sum_of_momentums -/

/-- `AnalyzeFrame.get_sum_of_momentums`: the per-type mass array is gathered
by atom, the 3×N velocity matrix is multiplied elementwise row-by-row by
that mass array (the numpy broadcast), and each row is summed. -/
def get_sum_of_momentums (types : List Nat) (atom_type_to_mass : Nat → ℚ)
    (vx vy vz : List ℚ) : List ℚ :=
  let mass := types.map atom_type_to_mass
  let momentums := [vx.zipWith (· * ·) mass, vy.zipWith (· * ·) mass,
    vz.zipWith (· * ·) mass]
  momentums.map List.sum

/-! ## Closed evaluations: the count_bonds normalization defect -/

/-- Claim C1: `count_bonds` is claimed to count each unordered bonded pair
once at the type pair normalized so that `type_i ≤ type_j`.  The code does
not normalize: with atom 0 of type 2 and atom 1 of type 1 bonded
(symmetric, self-loop-free neighbor list `[[1],[0]]`), the single bond is
recorded at matrix entry (1,0), below the diagonal, which the output dict
never reads; the returned map reports 0 for every type pair, including
the normalized key `A-B` of the existing bond. -/
theorem count_bonds_misses_reversed_type_pair :
    count_bonds 2 (fun t => if t = 1 then "A" else "B")
      (fun i => if i = 0 then 2 else 1) 2 [[1], [0]]
      = [("A-A", 0), ("A-B", 0), ("B-B", 0)] := by
  decide

/-- Claim C2: the bond count identity
`sum(count_bonds.values()) * 2 = sum(len(N(i)))` fails on the same
symmetric, self-loop-free frame: the left side is 0 while the degree sum
is 2, because the single bond is recorded below the diagonal of
`count_bonds_list` and dropped from the output dict. -/
theorem count_bonds_sum_identity_violated :
    sumValues (count_bonds 2 (fun t => if t = 1 then "A" else "B")
      (fun i => if i = 0 then 2 else 1) 2 [[1], [0]]) * 2 = 0 ∧
    (([[1], [0]] : List (List Nat)).map List.length).sum = 2 := by
  decide

/-! ## get_neighbor_list error behaviour -/

/-- Claim C3 (counterexample): `get_neighbor_list` is claimed to fail
whenever the bond-length matrix contains a negative entry; with one atom
type and matrix `[[-1]]` it succeeds and hands the Cython search the
(nonsensical) mesh length `-1 + 0.01 = -99/100`. -/
theorem get_neighbor_list_accepts_negative_bond_length :
    get_neighbor_list ⟨1, none, none, (10, 10, 10)⟩ "bond_length" none
      (some [[-1]]) = .ok (-(99/100), [[-1]]) := by
  norm_num [get_neighbor_list, bondLengthMax, listMapExcept, pyMax, minCell]

/-- Claim C4: when no threshold source is resolvable, `get_neighbor_list`
fails before any neighbor-search work: in `"cut_off"` mode with the cutoff
neither passed nor present in the defaults, and in `"bond_length"` mode
with no matrix passed and none in the defaults.  (The concrete Python
exceptions are a `TypeError` from `None + 0.01` / `len(None)`, raised
before the Cython call; no partial result is produced.) -/
theorem get_neighbor_list_unresolvable_thresholds_fail (cfg : FrameConfig)
    (co : Option ℚ) (obl : Option (List (List ℚ)))
    (h1 : cfg.defaultCutOff = none) (h2 : cfg.defaultBondLength = none) :
    (∃ e, get_neighbor_list cfg "cut_off" none obl = .error e) ∧
    (∃ e, get_neighbor_list cfg "bond_length" co none = .error e) := by
  constructor
  · by_cases hT : cfg.atomTypeNum = 0
    · exact ⟨.valueError, by simp [get_neighbor_list, h1, hT]⟩
    · exact ⟨.typeError, by simp [get_neighbor_list, h1, hT]⟩
  · exact ⟨.typeError, by simp [get_neighbor_list, h2]⟩

/-- Witness for C4: a concrete configuration with one atom type, empty
defaults, and a cubic cell, in both modes. -/
theorem get_neighbor_list_unresolvable_thresholds_fail_witness :
    (∃ e, get_neighbor_list ⟨1, none, none, (10, 10, 10)⟩ "cut_off" none none
      = .error e) ∧
    (∃ e, get_neighbor_list ⟨1, none, none, (10, 10, 10)⟩ "bond_length" none none
      = .error e) :=
  get_neighbor_list_unresolvable_thresholds_fail ⟨1, none, none, (10, 10, 10)⟩
    none none rfl rfl

/-! ## count_mols counterexamples -/

/-- Claim C7 (counterexample): `count_mols` is claimed to map each formula
string to the number of components whose composition yields that string.
With symbols `1 ↦ A`, `2 ↦ A1`, a molecule of eleven type-1 atoms and a
molecule of one type-2 atom both yield the formula string `A11`; the code
tallies the two distinct compositions separately and then writes them to
the same dict key one after the other, so the returned map says `A11 ↦ 1`
although two components yield that string. -/
theorem count_mols_formula_string_collision :
    count_mols 2 (fun t => if t = 1 then "A" else "A1")
      (fun i => if i < 11 then 1 else 2) [List.range 11, [11]] = [("A11", 1)] ∧
    (([List.range 11, [11]] : List (List Nat)).filter
      (fun m => decide (molStr 2 (fun t => if t = 1 then "A" else "A1")
        (atomTypeCount 2 (fun i => if i < 11 then 1 else 2) m) = "A11"))).length
      = 2 := by
  decide

/-- Claim C9 (counterexample): on the same single two-atom molecule
(atom 0 of type 1 `H`, atom 1 of type 2 `O`), the old
`AnalizeFrame.count_mols` returns the key `H1 O1` (type groups joined with
a space) while the new `AnalyzeFrame.count_mols` returns `H1O1`, so the
two maps are not equal. -/
theorem count_mols_old_new_key_format_differs :
    count_mols_old 2 (fun t => if t = 1 then "H" else "O")
      (fun i => if i = 0 then 1 else 2) [[0, 1]] = [("H1 O1", 1)] ∧
    count_mols 2 (fun t => if t = 1 then "H" else "O")
      (fun i => if i = 0 then 1 else 2) [[0, 1]] = [("H1O1", 1)] ∧
    count_mols_old 2 (fun t => if t = 1 then "H" else "O")
      (fun i => if i = 0 then 1 else 2) [[0, 1]]
      ≠ count_mols 2 (fun t => if t = 1 then "H" else "O")
        (fun i => if i = 0 then 1 else 2) [[0, 1]] := by
  refine ⟨by decide, by decide, ?_⟩
  decide

/-- Claim C3 (amended): `get_neighbor_list` in `"bond_length"` mode fails
with the `Incorrect format of bond length` assertion whenever the supplied
(or default-resolved) matrix is not T×T; the failure happens before the
mesh computation and the Cython neighbor search, so no partial result is
produced.  Negative entries, however, are not rejected (see the
counterexample theorem). -/
theorem get_neighbor_list_rejects_malformed_matrix (cfg : FrameConfig)
    (co : Option ℚ) (bl : List (List ℚ))
    (h : bl.length ≠ cfg.atomTypeNum ∨ ∃ row ∈ bl, row.length ≠ cfg.atomTypeNum) :
    get_neighbor_list cfg "bond_length" co (some bl)
      = .error (.assertError ("Incorrect format of bond length")) ∧
    (cfg.defaultBondLength = some bl →
      get_neighbor_list cfg "bond_length" co none
        = .error (.assertError ("Incorrect format of bond length"))) := by
  rcases h with hL | ⟨row, hrow, hlen⟩
  · constructor
    · simp [get_neighbor_list, hL]
    · intro hdef
      simp [get_neighbor_list, hdef, hL]
  · have hall : ¬ ∀ r ∈ bl, r.length = cfg.atomTypeNum := fun hf => hlen (hf row hrow)
    by_cases hL2 : bl.length = cfg.atomTypeNum
    · constructor
      · simp [get_neighbor_list, hL2, List.all_eq_true, hall]
      · intro hdef
        simp [get_neighbor_list, hdef, hL2, List.all_eq_true, hall]
    · constructor
      · simp [get_neighbor_list, hL2]
      · intro hdef
        simp [get_neighbor_list, hdef, hL2]

/-- Witness for C3 (amended): a 1×2 matrix is rejected when there are two
atom types. -/
theorem get_neighbor_list_rejects_malformed_matrix_witness :
    get_neighbor_list ⟨2, none, none, (10, 10, 10)⟩ "bond_length" none
      (some [[1, 1]]) = .error (.assertError ("Incorrect format of bond length")) :=
  (get_neighbor_list_rejects_malformed_matrix ⟨2, none, none, (10, 10, 10)⟩
    none [[1, 1]] (Or.inl (by decide))).1

/-! ## get_sum_of_momentums -/

/-- Sum of an elementwise product of two equal-length lists, written as an
index sum. -/
theorem zipWith_mul_sum_eq (v : List ℚ) :
    ∀ mass : List ℚ, v.length = mass.length →
      (v.zipWith (· * ·) mass).sum
        = ((List.range v.length).map (fun i => mass.getD i 0 * v.getD i 0)).sum := by
  induction v with
  | nil => intro mass _; simp
  | cons a v ih =>
    intro mass h
    cases mass with
    | nil => simp at h
    | cons b mass =>
      simp only [List.zipWith_cons_cons, List.sum_cons, List.length_cons,
        List.range_succ_eq_map, List.map_cons, List.map_map, List.getD_cons_zero]
      rw [ih mass (by simpa using h)]
      have : (fun i => (b :: mass).getD i 0 * (a :: v).getD i 0) ∘ Nat.succ
          = fun i => mass.getD i 0 * v.getD i 0 := by
        funext i
        simp
      rw [this]
      ring

/-- `getD` through `map`, inside the bounds. -/
theorem map_getD_eq (l : List Nat) (f : Nat → ℚ) :
    ∀ i : Nat, i < l.length → (l.map f).getD i 0 = f (l.getD i 0) := by
  induction l with
  | nil => intro i hi; simp at hi
  | cons a l ih =>
    intro i hi
    cases i with
    | zero => simp
    | succ i => simpa using ih i (by simpa using hi)

/-- Claim C8: `get_sum_of_momentums` returns a single 3-component vector
whose k-th component is the sum over all atoms of the atom type's mass
times the atom's k-th velocity component; it reads only the velocities,
the types, and the type-to-mass map (the bond graph does not occur among
its inputs). -/
theorem get_sum_of_momentums_spec (n : Nat) (types : List Nat)
    (atom_type_to_mass : Nat → ℚ) (vx vy vz : List ℚ)
    (hts : types.length = n) (hx : vx.length = n) (hy : vy.length = n)
    (hz : vz.length = n) :
    get_sum_of_momentums types atom_type_to_mass vx vy vz =
      [((List.range n).map
          (fun i => atom_type_to_mass (types.getD i 0) * vx.getD i 0)).sum,
       ((List.range n).map
          (fun i => atom_type_to_mass (types.getD i 0) * vy.getD i 0)).sum,
       ((List.range n).map
          (fun i => atom_type_to_mass (types.getD i 0) * vz.getD i 0)).sum] := by
  have comp : ∀ v : List ℚ, v.length = n →
      (v.zipWith (· * ·) (types.map atom_type_to_mass)).sum
        = ((List.range n).map
            (fun i => atom_type_to_mass (types.getD i 0) * v.getD i 0)).sum := by
    intro v hv
    rw [zipWith_mul_sum_eq v (types.map atom_type_to_mass) (by simp [hv, hts]), hv]
    refine congrArg List.sum (List.map_congr_left ?_)
    intro i hi
    rw [map_getD_eq types atom_type_to_mass i (by rw [hts]; exact List.mem_range.mp hi)]
  simp only [get_sum_of_momentums, List.map_cons, List.map_nil]
  rw [comp vx hx, comp vy hy, comp vz hz]

/-- Witness for C8: two atoms, masses 3 and 5, concrete velocities. -/
theorem get_sum_of_momentums_spec_witness :
    get_sum_of_momentums [1, 2] (fun t => if t = 1 then 3 else 5) [1, 2] [0, 1] [2, 2]
      = [((List.range 2).map
            (fun i => (fun t => if t = 1 then (3:ℚ) else 5) (([1, 2] : List Nat).getD i 0)
              * ([1, 2] : List ℚ).getD i 0)).sum,
         ((List.range 2).map
            (fun i => (fun t => if t = 1 then (3:ℚ) else 5) (([1, 2] : List Nat).getD i 0)
              * ([0, 1] : List ℚ).getD i 0)).sum,
         ((List.range 2).map
            (fun i => (fun t => if t = 1 then (3:ℚ) else 5) (([1, 2] : List Nat).getD i 0)
              * ([2, 2] : List ℚ).getD i 0)).sum] :=
  get_sum_of_momentums_spec 2 [1, 2] (fun t => if t = 1 then 3 else 5)
    [1, 2] [0, 1] [2, 2] rfl rfl rfl rfl

/-! ## Facts about pyMax and bondLengthMax -/

theorem init_le_foldl_max (l : List ℚ) : ∀ a : ℚ, a ≤ l.foldl max a := by
  induction l with
  | nil => intro a; exact le_refl a
  | cons x xs ih => intro a; exact le_trans (le_max_left a x) (ih (max a x))

theorem mem_le_foldl_max (l : List ℚ) : ∀ (a x : ℚ), x ∈ l → x ≤ l.foldl max a := by
  induction l with
  | nil => intro a x hx; simp at hx
  | cons y xs ih =>
    intro a x hx
    rcases List.mem_cons.mp hx with h | h
    · subst h; exact le_trans (le_max_right a x) (init_le_foldl_max xs (max a x))
    · exact ih (max a y) x h

theorem foldl_max_mem_or (l : List ℚ) : ∀ a : ℚ, l.foldl max a = a ∨ l.foldl max a ∈ l := by
  induction l with
  | nil => intro a; exact Or.inl rfl
  | cons x xs ih =>
    intro a
    rcases ih (max a x) with h | h
    · rcases max_choice a x with hm | hm
      · exact Or.inl (by rw [List.foldl_cons, h, hm])
      · exact Or.inr (by rw [List.foldl_cons, h, hm]; exact List.mem_cons_self x xs)
    · exact Or.inr (List.mem_cons_of_mem x h)

/-- Python `max` returns the greatest element. -/
theorem pyMax_eq_of_max (l : List ℚ) (m : ℚ) (hm : m ∈ l)
    (hub : ∀ x ∈ l, x ≤ m) : pyMax l = .ok m := by
  cases l with
  | nil => simp at hm
  | cons x xs =>
    have hle : xs.foldl max x ≤ m := by
      rcases foldl_max_mem_or xs x with h | h
      · rw [h]; exact hub x (List.mem_cons_self x xs)
      · exact hub _ (List.mem_cons_of_mem x h)
    have hge : m ≤ xs.foldl max x := by
      rcases List.mem_cons.mp hm with h | h
      · subst h; exact init_le_foldl_max xs m
      · exact mem_le_foldl_max xs x m h
    simp only [pyMax]
    rw [le_antisymm hle hge]

theorem headD_mem (l : List ℚ) (h : l ≠ []) : l.headD 0 ∈ l := by
  cases l with
  | nil => exact absurd rfl h
  | cons x xs => exact List.mem_cons_self x xs

theorem pyMax_ok_of_ne_nil (l : List ℚ) (h : l ≠ []) :
    pyMax l = .ok (l.foldl max (l.headD 0)) := by
  cases l with
  | nil => exact absurd rfl h
  | cons x xs => simp [pyMax, max_self]

theorem listMapExcept_ok {α β : Type} (f : α → Except PyErr β) (g : α → β) :
    ∀ l : List α, (∀ a ∈ l, f a = .ok (g a)) → listMapExcept f l = .ok (l.map g) := by
  intro l
  induction l with
  | nil => intro _; rfl
  | cons a as ih =>
    intro h
    simp only [listMapExcept, h a (List.mem_cons_self a as),
      ih (fun x hx => h x (List.mem_cons_of_mem a hx)), List.map_cons]

/-- The nested Python max over a matrix whose rows are all nonempty
returns the greatest entry. -/
theorem bondLengthMax_eq_of_max (bl : List (List ℚ)) (m : ℚ)
    (hne : ∀ row ∈ bl, row ≠ [])
    (hmem : ∃ row ∈ bl, m ∈ row)
    (hub : ∀ row ∈ bl, ∀ x ∈ row, x ≤ m) : bondLengthMax bl = .ok m := by
  have hmap : listMapExcept pyMax bl
      = .ok (bl.map (fun row => row.foldl max (row.headD 0))) :=
    listMapExcept_ok pyMax (fun row => row.foldl max (row.headD 0)) bl
      (fun row hrow => pyMax_ok_of_ne_nil row (hne row hrow))
  have hrowle : ∀ row ∈ bl, row.foldl max (row.headD 0) ≤ m := by
    intro row hrow
    rcases foldl_max_mem_or row (row.headD 0) with h | h
    · rw [h]; exact hub row hrow _ (headD_mem row (hne row hrow))
    · exact hub row hrow _ h
  rcases hmem with ⟨row₀, hrow₀, hm₀⟩
  have hrow₀eq : row₀.foldl max (row₀.headD 0) = m :=
    le_antisymm (hrowle row₀ hrow₀) (mem_le_foldl_max row₀ _ m hm₀)
  have : pyMax (bl.map (fun row => row.foldl max (row.headD 0))) = .ok m := by
    apply pyMax_eq_of_max
    · exact List.mem_map.mpr ⟨row₀, hrow₀, hrow₀eq⟩
    · intro x hx
      rcases List.mem_map.mp hx with ⟨row, hrow, hxeq⟩
      exact hxeq ▸ hrowle row hrow
  simp only [bondLengthMax, hmap, this]

/-- The nested max over the uniform `cut_off` matrix is the cutoff. -/
theorem bondLengthMax_replicate (T : Nat) (c : ℚ) (hT : 0 < T) :
    bondLengthMax (List.replicate T (List.replicate T c)) = .ok c := by
  apply bondLengthMax_eq_of_max
  · intro row hrow
    rw [List.eq_of_mem_replicate hrow]
    exact List.ne_nil_of_length_pos (by simpa using hT)
  · exact ⟨List.replicate T c, List.mem_replicate.mpr ⟨hT.ne', rfl⟩,
      List.mem_replicate.mpr ⟨hT.ne', rfl⟩⟩
  · intro row hrow x hx
    rw [List.eq_of_mem_replicate hrow] at hx
    rw [List.eq_of_mem_replicate hx]

/-- Claim C5: the mesh length handed to the Cython neighbor search equals
the maximum entry of the threshold matrix plus 0.01, replaced by
`min(Lx,Ly,Lz)/3` when that value times 3 exceeds `min(Lx,Ly,Lz)`; in
`"cut_off"` mode the threshold matrix passed on is the scalar cutoff
broadcast into a uniform T×T matrix. -/
theorem get_neighbor_list_mesh_length_spec (cfg : FrameConfig) (co : Option ℚ)
    (obl : Option (List (List ℚ))) (bl : List (List ℚ)) (m c : ℚ)
    (hT : 0 < cfg.atomTypeNum)
    (hrows : bl.length = cfg.atomTypeNum)
    (hcols : ∀ row ∈ bl, row.length = cfg.atomTypeNum)
    (hmem : ∃ row ∈ bl, m ∈ row)
    (hub : ∀ row ∈ bl, ∀ x ∈ row, x ≤ m) :
    get_neighbor_list cfg "bond_length" co (some bl)
      = .ok ((if (m + 1 / 100) * 3 > minCell cfg.cell then minCell cfg.cell / 3
              else m + 1 / 100), bl) ∧
    get_neighbor_list cfg "cut_off" (some c) obl
      = .ok ((if (c + 1 / 100) * 3 > minCell cfg.cell then minCell cfg.cell / 3
              else c + 1 / 100),
             List.replicate cfg.atomTypeNum (List.replicate cfg.atomTypeNum c)) := by
  constructor
  · have hne : ∀ row ∈ bl, row ≠ [] := by
      intro row hrow
      apply List.ne_nil_of_length_pos
      rw [hcols row hrow]
      exact hT
    have hmax := bondLengthMax_eq_of_max bl m hne hmem hub
    simp only [get_neighbor_list, hrows, List.all_eq_true, true_or, if_true]
    rw [if_pos (fun x hx => decide_eq_true (hcols x hx))]
    simp [hmax]
  · have hmax := bondLengthMax_replicate cfg.atomTypeNum c hT
    simp [get_neighbor_list, hmax]

/-- Witness for C5: two atom types, cell (10, 12, 11), explicit 2×2 matrix
with maximum entry 3, and cutoff 4. -/
theorem get_neighbor_list_mesh_length_spec_witness :
    get_neighbor_list ⟨2, none, none, (10, 12, 11)⟩ "bond_length" none
      (some [[1, 2], [2, 3]])
      = .ok ((if ((3:ℚ) + 1 / 100) * 3 > minCell (10, 12, 11)
              then minCell (10, 12, 11) / 3 else 3 + 1 / 100), [[1, 2], [2, 3]]) ∧
    get_neighbor_list ⟨2, none, none, (10, 12, 11)⟩ "cut_off" (some 4) none
      = .ok ((if ((4:ℚ) + 1 / 100) * 3 > minCell (10, 12, 11)
              then minCell (10, 12, 11) / 3 else 4 + 1 / 100),
             List.replicate 2 (List.replicate 2 4)) :=
  get_neighbor_list_mesh_length_spec ⟨2, none, none, (10, 12, 11)⟩ none none
    [[1, 2], [2, 3]] 3 4 (by decide) rfl
    (by intro row hrow; fin_cases hrow <;> rfl)
    ⟨[2, 3], List.mem_cons_of_mem _ (List.mem_cons_self _ _),
      List.mem_cons_of_mem _ (List.mem_cons_self _ _)⟩
    (by intro row hrow x hx; fin_cases hrow <;> fin_cases hx <;> norm_num)

/-! ## Dict lemmas -/

theorem dictGet?_cons {K V : Type} [DecidableEq K] (k' : K) (v' : V)
    (d : List (K × V)) (k : K) :
    dictGet? ((k', v') :: d) k = if k' = k then some v' else dictGet? d k := by
  by_cases h : k' = k
  · rw [if_pos h, dictGet?, List.find?_cons_of_pos _ (by simpa using h)]
    rfl
  · rw [if_neg h, dictGet?, List.find?_cons_of_neg _ (by simpa using h)]
    rfl

theorem dictGet?_append_of_some {K V : Type} [DecidableEq K] {d : List (K × V)}
    {k : K} {v : V} (d' : List (K × V)) (h : dictGet? d k = some v) :
    dictGet? (d ++ d') k = some v := by
  induction d with
  | nil => simp [dictGet?] at h
  | cons p d ih =>
    rw [List.cons_append]
    obtain ⟨k', v'⟩ := p
    rw [dictGet?_cons] at h ⊢
    by_cases hk : k' = k
    · rwa [if_pos hk] at h ⊢
    · rw [if_neg hk] at h ⊢
      exact ih h

theorem dictGet?_append_of_none {K V : Type} [DecidableEq K] {d : List (K × V)}
    {k : K} (d' : List (K × V)) (h : dictGet? d k = none) :
    dictGet? (d ++ d') k = dictGet? d' k := by
  induction d with
  | nil => simp
  | cons p d ih =>
    rw [List.cons_append]
    obtain ⟨k', v'⟩ := p
    rw [dictGet?_cons] at h ⊢
    by_cases hk : k' = k
    · rw [if_pos hk] at h; exact absurd h (by simp)
    · rw [if_neg hk] at h ⊢
      exact ih h

theorem dictGet?_map_overwrite {K V : Type} [DecidableEq K] (d : List (K × V))
    (k : K) (v : V) :
    dictGet? (d.map (fun p => if p.1 = k then (k, v) else p)) k
      = if (dictGet? d k).isSome then some v else none := by
  induction d with
  | nil => simp [dictGet?]
  | cons p d ih =>
    obtain ⟨k', v'⟩ := p
    by_cases h : k' = k
    · simp only [List.map_cons, if_pos h, dictGet?_cons, if_pos rfl, if_pos h]
      simp
    · simp only [List.map_cons, if_neg h, dictGet?_cons, if_neg h, ih]

theorem dictGet?_map_overwrite_ne {K V : Type} [DecidableEq K] (d : List (K × V))
    {k k' : K} (v : V) (h : k' ≠ k) :
    dictGet? (d.map (fun p => if p.1 = k then (k, v) else p)) k'
      = dictGet? d k' := by
  induction d with
  | nil => simp
  | cons p d ih =>
    obtain ⟨a, b⟩ := p
    by_cases ha : a = k
    · simp only [List.map_cons, if_pos ha, dictGet?_cons]
      rw [if_neg (fun hk => h hk.symm), if_neg (fun hak => h (ha ▸ hak).symm)]
      exact ih
    · simp only [List.map_cons, if_neg ha, dictGet?_cons, ih]

theorem dictGet?_insert_self {K V : Type} [DecidableEq K] (d : List (K × V))
    (k : K) (v : V) : dictGet? (dictInsert d k v) k = some v := by
  by_cases hs : (dictGet? d k).isSome
  · rw [dictInsert, if_pos hs, dictGet?_map_overwrite, if_pos hs]
  · rw [dictInsert, if_neg hs,
      dictGet?_append_of_none _ (Option.not_isSome_iff_eq_none.mp hs),
      dictGet?_cons, if_pos rfl]

theorem dictGet?_insert_ne {K V : Type} [DecidableEq K] (d : List (K × V))
    {k k' : K} (v : V) (h : k' ≠ k) :
    dictGet? (dictInsert d k v) k' = dictGet? d k' := by
  by_cases hs : (dictGet? d k).isSome
  · rw [dictInsert, if_pos hs, dictGet?_map_overwrite_ne d v h]
  · rw [dictInsert, if_neg hs]
    cases hg : dictGet? d k' with
    | some w => exact dictGet?_append_of_some _ hg
    | none =>
      rw [dictGet?_append_of_none _ hg, dictGet?_cons, if_neg (fun hk => h hk.symm)]
      rfl

theorem dictGet?_some_mem {K V : Type} [DecidableEq K] {d : List (K × V)}
    {k : K} {v : V} (h : dictGet? d k = some v) : (k, v) ∈ d := by
  rw [dictGet?] at h
  cases hf : d.find? (fun p => decide (p.1 = k)) with
  | none => rw [hf] at h; simp at h
  | some q =>
    rw [hf] at h
    have hq1' := List.find?_some hf
    have hq1 : q.1 = k := by simpa using hq1'
    have hq2 : q.2 = v := by simpa using h
    have hq : q = (k, v) := by
      obtain ⟨a, b⟩ := q
      simp only [Prod.mk.injEq]
      exact ⟨hq1, hq2⟩
    exact hq ▸ List.mem_of_find?_eq_some hf

theorem dictGet?_none_not_mem_keys {K V : Type} [DecidableEq K] {d : List (K × V)}
    {k : K} (h : dictGet? d k = none) : k ∉ d.map Prod.fst := by
  intro hk
  rcases List.mem_map.mp hk with ⟨p, hp, hpk⟩
  rw [dictGet?] at h
  have hf : d.find? (fun q => decide (q.1 = k)) = none :=
    Option.map_eq_none'.mp h
  have := List.find?_eq_none.mp hf p hp
  simp [hpk] at this

theorem dictGet?_eq_of_mem_nodup {K V : Type} [DecidableEq K] {d : List (K × V)}
    {k : K} {v : V} (hd : (d.map Prod.fst).Nodup) (hm : (k, v) ∈ d) :
    dictGet? d k = some v := by
  induction d with
  | nil => simp at hm
  | cons p d ih =>
    obtain ⟨a, b⟩ := p
    rw [dictGet?_cons]
    rcases List.mem_cons.mp hm with h | h
    · obtain ⟨ha, hb⟩ := Prod.mk.injEq .. ▸ h.symm
      rw [if_pos (by rw [ha]), hb]
    · have hnd := List.nodup_cons.mp (show (a :: d.map Prod.fst).Nodup from hd)
      by_cases hak : a = k
      · exfalso
        exact hnd.1 (hak ▸ List.mem_map.mpr ⟨(k, v), h, rfl⟩)
      · rw [if_neg hak]
        exact ih hnd.2 h

theorem keys_insert_of_isSome {K V : Type} [DecidableEq K] {d : List (K × V)}
    {k : K} (v : V) (hs : (dictGet? d k).isSome) :
    (dictInsert d k v).map Prod.fst = d.map Prod.fst := by
  rw [dictInsert, if_pos hs, List.map_map]
  apply List.map_congr_left
  intro p _
  by_cases h : p.1 = k
  · simp [h]
  · simp [h]

theorem keys_insert_of_none {K V : Type} [DecidableEq K] {d : List (K × V)}
    {k : K} (v : V) (hs : ¬ (dictGet? d k).isSome) :
    (dictInsert d k v).map Prod.fst = d.map Prod.fst ++ [k] := by
  rw [dictInsert, if_neg hs, List.map_append]
  rfl

theorem nodup_keys_insert {K V : Type} [DecidableEq K] {d : List (K × V)}
    (k : K) (v : V) (hd : (d.map Prod.fst).Nodup) :
    ((dictInsert d k v).map Prod.fst).Nodup := by
  by_cases hs : (dictGet? d k).isSome
  · rwa [keys_insert_of_isSome v hs]
  · rw [keys_insert_of_none v hs]
    rw [List.nodup_append]
    refine ⟨hd, List.nodup_singleton k, ?_⟩
    intro a ha hak
    rw [List.mem_singleton.mp hak] at ha
    exact dictGet?_none_not_mem_keys (Option.not_isSome_iff_eq_none.mp hs) ha

theorem keys_insert_mem {K V : Type} [DecidableEq K] {d : List (K × V)}
    {k k0 : K} (v : V) (h : k ∈ (dictInsert d k0 v).map Prod.fst) :
    k ∈ d.map Prod.fst ∨ k = k0 := by
  by_cases hs : (dictGet? d k0).isSome
  · rw [keys_insert_of_isSome v hs] at h
    exact Or.inl h
  · rw [keys_insert_of_none v hs] at h
    rcases List.mem_append.mp h with h | h
    · exact Or.inl h
    · exact Or.inr (List.mem_singleton.mp h)

theorem sumValues_append {K : Type} (d d' : List (K × Nat)) :
    sumValues (d ++ d') = sumValues d + sumValues d' := by
  simp [sumValues]

theorem map_overwrite_id {K V : Type} [DecidableEq K] {d : List (K × V)} {k : K}
    (v : V) (h : ∀ p ∈ d, p.1 ≠ k) :
    d.map (fun p => if p.1 = k then (k, v) else p) = d := by
  induction d with
  | nil => rfl
  | cons p d ih =>
    simp only [List.map_cons]
    rw [if_neg (h p (List.mem_cons_self p d)),
      ih (fun q hq => h q (List.mem_cons_of_mem p hq))]

theorem sumValues_map_overwrite {K : Type} [DecidableEq K] {d : List (K × Nat)}
    {k : K} {w : Nat} (v : Nat) (hd : (d.map Prod.fst).Nodup)
    (hw : dictGet? d k = some w) :
    sumValues (d.map (fun p => if p.1 = k then (k, v) else p)) + w
      = sumValues d + v := by
  induction d with
  | nil => simp [dictGet?] at hw
  | cons p d ih =>
    obtain ⟨a, b⟩ := p
    have hnd := List.nodup_cons.mp (show (a :: d.map Prod.fst).Nodup from hd)
    rw [dictGet?_cons] at hw
    by_cases ha : a = k
    · rw [if_pos ha] at hw
      have hb : b = w := by simpa using hw
      have htail : ∀ q ∈ d, q.1 ≠ k := by
        intro q hq hqk
        exact hnd.1 (ha ▸ hqk ▸ List.mem_map.mpr ⟨q, hq, rfl⟩)
      rw [List.map_cons, if_pos (show (a, b).1 = k from ha),
        map_overwrite_id v htail]
      simp [sumValues, hb]
      omega
    · rw [if_neg ha] at hw
      rw [List.map_cons, if_neg (show ¬ (a, b).1 = k from ha)]
      have := ih hnd.2 hw
      simp only [sumValues, List.map_cons, List.sum_cons] at this ⊢
      omega

theorem sumValues_insert {K : Type} [DecidableEq K] (d : List (K × Nat))
    (k : K) (v : Nat) (hd : (d.map Prod.fst).Nodup) :
    sumValues (dictInsert d k v) + (dictGet? d k).getD 0 = sumValues d + v := by
  by_cases hs : (dictGet? d k).isSome
  · obtain ⟨w, hw⟩ := Option.isSome_iff_exists.mp hs
    rw [dictInsert, if_pos hs, hw]
    exact sumValues_map_overwrite v hd hw
  · rw [dictInsert, if_neg hs, Option.not_isSome_iff_eq_none.mp hs,
      sumValues_append]
    simp [sumValues]

theorem sumValues_bump {K : Type} [DecidableEq K] (d : List (K × Nat)) (k : K)
    (hd : (d.map Prod.fst).Nodup) :
    sumValues (dictBump d k) = sumValues d + 1 := by
  have := sumValues_insert d k ((dictGet? d k).getD 0 + 1) hd
  rw [dictBump]
  omega

theorem nodup_keys_bump {K : Type} [DecidableEq K] (d : List (K × Nat)) (k : K)
    (hd : (d.map Prod.fst).Nodup) :
    ((dictBump d k).map Prod.fst).Nodup :=
  nodup_keys_insert k _ hd

/-! ## Folding dictBump over a list (the mols_count_tmp pattern) -/

theorem foldl_bump_nodup {α K : Type} [DecidableEq K] (f : α → K) :
    ∀ (l : List α) (d : List (K × Nat)), (d.map Prod.fst).Nodup →
      ((l.foldl (fun d2 a => dictBump d2 (f a)) d).map Prod.fst).Nodup := by
  intro l
  induction l with
  | nil => intro d hd; exact hd
  | cons a l ih =>
    intro d hd
    exact ih (dictBump d (f a)) (nodup_keys_bump d (f a) hd)

theorem foldl_bump_sum {α K : Type} [DecidableEq K] (f : α → K) :
    ∀ (l : List α) (d : List (K × Nat)), (d.map Prod.fst).Nodup →
      sumValues (l.foldl (fun d2 a => dictBump d2 (f a)) d)
        = sumValues d + l.length := by
  intro l
  induction l with
  | nil => intro d _; simp
  | cons a l ih =>
    intro d hd
    rw [List.foldl_cons, ih (dictBump d (f a)) (nodup_keys_bump d (f a) hd),
      sumValues_bump d (f a) hd, List.length_cons]
    omega

theorem foldl_bump_keys {α K : Type} [DecidableEq K] (f : α → K) :
    ∀ (l : List α) (d : List (K × Nat)) (k : K),
      k ∈ (l.foldl (fun d2 a => dictBump d2 (f a)) d).map Prod.fst →
      k ∈ d.map Prod.fst ∨ ∃ a ∈ l, f a = k := by
  intro l
  induction l with
  | nil => intro d k hk; exact Or.inl hk
  | cons a l ih =>
    intro d k hk
    rcases ih (dictBump d (f a)) k hk with h | h
    · rcases keys_insert_mem _ h with h2 | h2
      · exact Or.inl h2
      · exact Or.inr ⟨a, List.mem_cons_self a l, h2.symm⟩
    · rcases h with ⟨b, hb, hbk⟩
      exact Or.inr ⟨b, List.mem_cons_of_mem a hb, hbk⟩

theorem foldl_bump_get {α K : Type} [DecidableEq K] (f : α → K) :
    ∀ (l : List α) (d : List (K × Nat)) (k : K),
      dictGet? (l.foldl (fun d2 a => dictBump d2 (f a)) d) k
        = if l.countP (fun a => decide (f a = k)) = 0 ∧ dictGet? d k = none
          then none
          else some ((dictGet? d k).getD 0
            + l.countP (fun a => decide (f a = k))) := by
  intro l
  induction l with
  | nil =>
    intro d k
    cases hg : dictGet? d k with
    | none => simp [hg]
    | some w => simp [hg]
  | cons a l ih =>
    intro d k
    rw [List.foldl_cons]
    by_cases hf : f a = k
    · have hstep : dictGet? (dictBump d (f a)) k
          = some ((dictGet? d k).getD 0 + 1) := by
        rw [dictBump, hf, dictGet?_insert_self]
      rw [ih (dictBump d (f a)) k, hstep,
        List.countP_cons_of_pos _ _ (by simpa using hf)]
      rw [if_neg (fun hc => Option.noConfusion hc.2),
        if_neg (fun hc => absurd hc.1 (by omega))]
      exact congrArg some (by simp only [Option.getD_some]; omega)
    · have hstep : dictGet? (dictBump d (f a)) k = dictGet? d k := by
        rw [dictBump]
        exact dictGet?_insert_ne d _ (fun h => hf h.symm)
      rw [ih (dictBump d (f a)) k, hstep,
        List.countP_cons_of_neg _ _ (by simpa using hf)]

/-! ## Folding dictInsert of relabelled keys (the string-building stage) -/

theorem foldl_relabel_get {K1 K2 : Type} [DecidableEq K1] [DecidableEq K2]
    (g : K1 → K2) :
    ∀ (tmp : List (K1 × Nat)) (d : List (K2 × Nat)) (s : K2),
      (tmp.map (fun p => g p.1)).Nodup →
      (∀ p ∈ tmp, dictGet? d (g p.1) = none) →
      dictGet? (tmp.foldl (fun d2 p => dictInsert d2 (g p.1) p.2) d) s
        = match tmp.find? (fun p => decide (g p.1 = s)) with
          | some p => some p.2
          | none => dictGet? d s := by
  intro tmp
  induction tmp with
  | nil => intro d s _ _; rfl
  | cons p tmp ih =>
    intro d s hnd hfresh
    have hnd' := List.nodup_cons.mp
      (show (g p.1 :: tmp.map (fun q => g q.1)).Nodup from hnd)
    have hfresh' : ∀ q ∈ tmp, dictGet? (dictInsert d (g p.1) p.2) (g q.1) = none := by
      intro q hq
      have hne : g q.1 ≠ g p.1 := by
        intro he
        exact hnd'.1 (he ▸ List.mem_map.mpr ⟨q, hq, rfl⟩)
      rw [dictGet?_insert_ne d p.2 hne]
      exact hfresh q (List.mem_cons_of_mem p hq)
    rw [List.foldl_cons, ih (dictInsert d (g p.1) p.2) s hnd'.2 hfresh']
    by_cases hps : g p.1 = s
    · rw [List.find?_cons_of_pos _ (by simpa using hps)]
      have hnone : tmp.find? (fun q => decide (g q.1 = s)) = none := by
        rw [List.find?_eq_none]
        intro q hq hd
        have : g q.1 = s := by simpa using hd
        exact hnd'.1 ((this.trans hps.symm) ▸ List.mem_map.mpr ⟨q, hq, rfl⟩)
      rw [hnone]
      rw [← hps, dictGet?_insert_self]
    · rw [List.find?_cons_of_neg _ (by simpa using hps)]
      cases hfind : tmp.find? (fun q => decide (g q.1 = s)) with
      | some q => rfl
      | none =>
        exact dictGet?_insert_ne d p.2 (fun he => hps he.symm)

theorem foldl_relabel_sum {K1 K2 : Type} [DecidableEq K1] [DecidableEq K2]
    (g : K1 → K2) :
    ∀ (tmp : List (K1 × Nat)) (d : List (K2 × Nat)),
      (tmp.map (fun p => g p.1)).Nodup →
      (∀ p ∈ tmp, dictGet? d (g p.1) = none) →
      sumValues (tmp.foldl (fun d2 p => dictInsert d2 (g p.1) p.2) d)
        = sumValues d + sumValues tmp := by
  intro tmp
  induction tmp with
  | nil => intro d _ _; simp [sumValues]
  | cons p tmp ih =>
    intro d hnd hfresh
    have hnd' := List.nodup_cons.mp
      (show (g p.1 :: tmp.map (fun q => g q.1)).Nodup from hnd)
    have hins : dictInsert d (g p.1) p.2 = d ++ [(g p.1, p.2)] := by
      rw [dictInsert, if_neg]
      rw [hfresh p (List.mem_cons_self p tmp)]
      simp
    have hfresh' : ∀ q ∈ tmp, dictGet? (dictInsert d (g p.1) p.2) (g q.1) = none := by
      intro q hq
      have hne : g q.1 ≠ g p.1 := by
        intro he
        exact hnd'.1 (he ▸ List.mem_map.mpr ⟨q, hq, rfl⟩)
      rw [dictGet?_insert_ne d p.2 hne]
      exact hfresh q (List.mem_cons_of_mem p hq)
    rw [List.foldl_cons, ih (dictInsert d (g p.1) p.2) hnd'.2 hfresh', hins,
      sumValues_append]
    simp only [sumValues, List.map_cons, List.sum_cons, List.map_nil,
      List.sum_nil]
    omega

theorem foldl_relabel_get_found {K1 K2 : Type} [DecidableEq K1] [DecidableEq K2]
    (g : K1 → K2) (tmp : List (K1 × Nat)) (d : List (K2 × Nat)) (s : K2)
    (q : K1 × Nat)
    (hnd : (tmp.map (fun p => g p.1)).Nodup)
    (hfresh : ∀ p ∈ tmp, dictGet? d (g p.1) = none)
    (hfind : tmp.find? (fun p => decide (g p.1 = s)) = some q) :
    dictGet? (tmp.foldl (fun d2 p => dictInsert d2 (g p.1) p.2) d) s = some q.2 := by
  have h := foldl_relabel_get g tmp d s hnd hfresh
  rw [hfind] at h
  exact h

theorem foldl_relabel_get_not_found {K1 K2 : Type} [DecidableEq K1] [DecidableEq K2]
    (g : K1 → K2) (tmp : List (K1 × Nat)) (d : List (K2 × Nat)) (s : K2)
    (hnd : (tmp.map (fun p => g p.1)).Nodup)
    (hfresh : ∀ p ∈ tmp, dictGet? d (g p.1) = none)
    (hfind : tmp.find? (fun p => decide (g p.1 = s)) = none) :
    dictGet? (tmp.foldl (fun d2 p => dictInsert d2 (g p.1) p.2) d) s
      = dictGet? d s := by
  have h := foldl_relabel_get g tmp d s hnd hfresh
  rw [hfind] at h
  exact h

/-! ## count_mols claims -/

/-- Claim C10: when distinct compositions among the molecules yield
distinct formula strings (the composition-to-formula map is injective on
the grouping), the values of `count_mols` sum to the total number of
components: every molecule lands in exactly one formula bucket and none is
lost. -/
theorem count_mols_total_count (T : Nat) (atom_type_to_symbol : Nat → String)
    (atomTypes : Nat → Nat) (molsList : List (List Nat))
    (hinj : ∀ m1 ∈ molsList, ∀ m2 ∈ molsList,
      molStr T atom_type_to_symbol (atomTypeCount T atomTypes m1)
        = molStr T atom_type_to_symbol (atomTypeCount T atomTypes m2) →
      atomTypeCount T atomTypes m1 = atomTypeCount T atomTypes m2) :
    sumValues (count_mols T atom_type_to_symbol atomTypes molsList)
      = molsList.length := by
  have hkeys0 : (([] : List (List Nat × Nat)).map Prod.fst).Nodup := by simp
  have htmpnodup := foldl_bump_nodup (atomTypeCount T atomTypes) molsList [] hkeys0
  have horigin : ∀ k ∈ (molsCountTmp T atomTypes molsList).map Prod.fst,
      ∃ mol ∈ molsList, atomTypeCount T atomTypes mol = k := by
    intro k hk
    rcases foldl_bump_keys (atomTypeCount T atomTypes) molsList [] k hk with h | h
    · simp at h
    · exact h
  have hstrnodup : ((molsCountTmp T atomTypes molsList).map
      (fun p => molStr T atom_type_to_symbol p.1)).Nodup := by
    have heq : (molsCountTmp T atomTypes molsList).map
        (fun p => molStr T atom_type_to_symbol p.1)
        = ((molsCountTmp T atomTypes molsList).map Prod.fst).map
            (molStr T atom_type_to_symbol) := by
      rw [List.map_map]
      rfl
    rw [heq]
    apply List.Nodup.map_on _ htmpnodup
    intro x hx y hy hxy
    rcases horigin x hx with ⟨m1, hm1, he1⟩
    rcases horigin y hy with ⟨m2, hm2, he2⟩
    rw [← he1, ← he2] at hxy ⊢
    exact hinj m1 hm1 m2 hm2 hxy
  have hfresh : ∀ p ∈ molsCountTmp T atomTypes molsList,
      dictGet? ([] : List (String × Nat)) (molStr T atom_type_to_symbol p.1) = none :=
    fun p _ => rfl
  have h1 : sumValues (count_mols T atom_type_to_symbol atomTypes molsList)
      = sumValues ([] : List (String × Nat))
        + sumValues (molsCountTmp T atomTypes molsList) :=
    foldl_relabel_sum (molStr T atom_type_to_symbol)
      (molsCountTmp T atomTypes molsList) [] hstrnodup hfresh
  have h2 : sumValues (molsCountTmp T atomTypes molsList)
      = sumValues ([] : List (List Nat × Nat)) + molsList.length :=
    foldl_bump_sum (atomTypeCount T atomTypes) molsList [] hkeys0
  rw [h1, h2]
  simp [sumValues]

/-- Witness for C10: three molecules `[0]`, `[1]`, `[2]` with types 1, 2, 2
and symbols H, O give formula counts summing to 3. -/
theorem count_mols_total_count_witness :
    sumValues (count_mols 2 (fun t => if t = 1 then "H" else "O")
      (fun i => if i = 0 then 1 else 2) [[0], [1], [2]]) = 3 :=
  count_mols_total_count 2 (fun t => if t = 1 then "H" else "O")
    (fun i => if i = 0 then 1 else 2) [[0], [1], [2]] (by decide)

/-- Claim C7 (amended): provided distinct compositions among the molecules
yield distinct formula strings, `count_mols` maps each occurring formula
string to the number of components whose composition yields that string
(and contains no other keys); the formula string itself is built by
`molStr`: ascending type id, zero counts omitted, symbol immediately
followed by the count.  Without the injectivity proviso the final write
per formula string overwrites the tallies of colliding compositions (see
the counterexample theorem). -/
theorem count_mols_counts_formula_occurrences (T : Nat)
    (atom_type_to_symbol : Nat → String) (atomTypes : Nat → Nat)
    (molsList : List (List Nat))
    (hinj : ∀ m1 ∈ molsList, ∀ m2 ∈ molsList,
      molStr T atom_type_to_symbol (atomTypeCount T atomTypes m1)
        = molStr T atom_type_to_symbol (atomTypeCount T atomTypes m2) →
      atomTypeCount T atomTypes m1 = atomTypeCount T atomTypes m2)
    (s : String) :
    dictGet? (count_mols T atom_type_to_symbol atomTypes molsList) s
      = if (molsList.filter (fun mol =>
            decide (molStr T atom_type_to_symbol
              (atomTypeCount T atomTypes mol) = s))).length = 0
        then none
        else some ((molsList.filter (fun mol =>
            decide (molStr T atom_type_to_symbol
              (atomTypeCount T atomTypes mol) = s))).length) := by
  have hkeys0 : (([] : List (List Nat × Nat)).map Prod.fst).Nodup := by simp
  have htmpnodup := foldl_bump_nodup (atomTypeCount T atomTypes) molsList [] hkeys0
  have horigin : ∀ k ∈ (molsCountTmp T atomTypes molsList).map Prod.fst,
      ∃ mol ∈ molsList, atomTypeCount T atomTypes mol = k := by
    intro k hk
    rcases foldl_bump_keys (atomTypeCount T atomTypes) molsList [] k hk with h | h
    · simp at h
    · exact h
  have hstrnodup : ((molsCountTmp T atomTypes molsList).map
      (fun p => molStr T atom_type_to_symbol p.1)).Nodup := by
    have heq : (molsCountTmp T atomTypes molsList).map
        (fun p => molStr T atom_type_to_symbol p.1)
        = ((molsCountTmp T atomTypes molsList).map Prod.fst).map
            (molStr T atom_type_to_symbol) := by
      rw [List.map_map]
      rfl
    rw [heq]
    apply List.Nodup.map_on _ htmpnodup
    intro x hx y hy hxy
    rcases horigin x hx with ⟨m1, hm1, he1⟩
    rcases horigin y hy with ⟨m2, hm2, he2⟩
    rw [← he1, ← he2] at hxy ⊢
    exact hinj m1 hm1 m2 hm2 hxy
  have hfresh : ∀ p ∈ molsCountTmp T atomTypes molsList,
      dictGet? ([] : List (String × Nat)) (molStr T atom_type_to_symbol p.1) = none :=
    fun p _ => rfl
  cases hfind : (molsCountTmp T atomTypes molsList).find?
      (fun p => decide (molStr T atom_type_to_symbol p.1 = s)) with
  | some q =>
    have hmain2 : dictGet? (count_mols T atom_type_to_symbol atomTypes molsList) s
        = some q.2 :=
      foldl_relabel_get_found (molStr T atom_type_to_symbol)
        (molsCountTmp T atomTypes molsList) [] s q hstrnodup hfresh hfind
    have hq1 : molStr T atom_type_to_symbol q.1 = s := by
      have := List.find?_some hfind
      simpa using this
    have hqmem : q ∈ molsCountTmp T atomTypes molsList :=
      List.mem_of_find?_eq_some hfind
    have hqget : dictGet? (molsCountTmp T atomTypes molsList) q.1 = some q.2 :=
      dictGet?_eq_of_mem_nodup htmpnodup (by rwa [Prod.mk.eta])
    have hcount : dictGet? (molsCountTmp T atomTypes molsList) q.1
        = if molsList.countP
              (fun mol => decide (atomTypeCount T atomTypes mol = q.1)) = 0
            ∧ dictGet? ([] : List (List Nat × Nat)) q.1 = none
          then none
          else some ((dictGet? ([] : List (List Nat × Nat)) q.1).getD 0
            + molsList.countP
                (fun mol => decide (atomTypeCount T atomTypes mol = q.1))) :=
      foldl_bump_get (atomTypeCount T atomTypes) molsList [] q.1
    rw [hqget] at hcount
    by_cases hc : molsList.countP
        (fun mol => decide (atomTypeCount T atomTypes mol = q.1)) = 0
    · rw [if_pos ⟨hc, rfl⟩] at hcount
      exact absurd hcount (by simp)
    · rw [if_neg (fun h => hc h.1)] at hcount
      have hq2 : q.2 = molsList.countP
          (fun mol => decide (atomTypeCount T atomTypes mol = q.1)) := by
        simp [dictGet?] at hcount
        exact hcount
      have hpred : ∀ mol ∈ molsList,
          (decide (molStr T atom_type_to_symbol
            (atomTypeCount T atomTypes mol) = s))
          = (decide (atomTypeCount T atomTypes mol = q.1)) := by
        intro mol hmol
        by_cases he : atomTypeCount T atomTypes mol = q.1
        · simp [he, hq1]
        · have hne : molStr T atom_type_to_symbol
              (atomTypeCount T atomTypes mol) ≠ s := by
            intro hs2
            rcases horigin q.1 (List.mem_map.mpr ⟨q, hqmem, rfl⟩) with ⟨m2, hm2, he2⟩
            have := hinj mol hmol m2 hm2 (by rw [hs2, he2, hq1])
            exact he (this.trans he2)
          simp [he, hne]
      have hL : (molsList.filter (fun mol =>
            decide (molStr T atom_type_to_symbol
              (atomTypeCount T atomTypes mol) = s))).length
          = molsList.countP
              (fun mol => decide (atomTypeCount T atomTypes mol = q.1)) := by
        rw [List.filter_congr hpred, ← List.countP_eq_length_filter]
      rw [hmain2, hL, if_neg hc]
      exact congrArg some hq2
  | none =>
    have hmain2 : dictGet? (count_mols T atom_type_to_symbol atomTypes molsList) s
        = none :=
      foldl_relabel_get_not_found (molStr T atom_type_to_symbol)
        (molsCountTmp T atomTypes molsList) [] s hstrnodup hfresh hfind
    have hnomem : ∀ q ∈ molsCountTmp T atomTypes molsList,
        molStr T atom_type_to_symbol q.1 ≠ s := by
      intro q hq
      have := List.find?_eq_none.mp hfind q hq
      simpa using this
    have hzero : (molsList.filter (fun mol =>
          decide (molStr T atom_type_to_symbol
            (atomTypeCount T atomTypes mol) = s))).length = 0 := by
      rw [← List.countP_eq_length_filter, List.countP_eq_zero]
      intro mol hmol hdec
      have hs2 : molStr T atom_type_to_symbol (atomTypeCount T atomTypes mol) = s :=
        of_decide_eq_true hdec
      have hpos : molsList.countP (fun m2 =>
          decide (atomTypeCount T atomTypes m2 = atomTypeCount T atomTypes mol)) ≠ 0 := by
        have h00 : 0 < molsList.countP (fun m2 =>
            decide (atomTypeCount T atomTypes m2 = atomTypeCount T atomTypes mol)) :=
          List.countP_pos.mpr ⟨mol, hmol, by simp⟩
        omega
      have hcount : dictGet? (molsCountTmp T atomTypes molsList)
          (atomTypeCount T atomTypes mol)
          = if molsList.countP (fun m2 => decide (atomTypeCount T atomTypes m2
                = atomTypeCount T atomTypes mol)) = 0
              ∧ dictGet? ([] : List (List Nat × Nat))
                  (atomTypeCount T atomTypes mol) = none
            then none
            else some ((dictGet? ([] : List (List Nat × Nat))
                (atomTypeCount T atomTypes mol)).getD 0
              + molsList.countP (fun m2 => decide (atomTypeCount T atomTypes m2
                  = atomTypeCount T atomTypes mol))) :=
        foldl_bump_get (atomTypeCount T atomTypes) molsList []
          (atomTypeCount T atomTypes mol)
      rw [if_neg (fun h => hpos h.1)] at hcount
      exact hnomem _ (dictGet?_some_mem hcount) hs2
    rw [hmain2, if_pos hzero]

/-- Witness for C7 (amended): a single water-like molecule, looked up at
its formula string `H1O1`. -/
theorem count_mols_counts_formula_occurrences_witness :
    dictGet? (count_mols 2 (fun t => if t = 1 then "H" else "O")
      (fun i => if i = 0 then 1 else 2) [[0, 1]]) ("H1O1")
      = if (([[0, 1]] : List (List Nat)).filter (fun mol =>
            decide (molStr 2 (fun t => if t = 1 then "H" else "O")
              (atomTypeCount 2 (fun i => if i = 0 then 1 else 2) mol)
              = "H1O1"))).length = 0
        then none
        else some ((([[0, 1]] : List (List Nat)).filter (fun mol =>
            decide (molStr 2 (fun t => if t = 1 then "H" else "O")
              (atomTypeCount 2 (fun i => if i = 0 then 1 else 2) mol)
              = "H1O1"))).length) :=
  count_mols_counts_formula_occurrences 2 (fun t => if t = 1 then "H" else "O")
    (fun i => if i = 0 then 1 else 2) [[0, 1]] (by decide) "H1O1"

/-! ## Old versus new count_mols -/

theorem string_empty_append (s : String) : "" ++ s = s := by
  cases s
  simp [String.append]

theorem molStr_fold_skip_new (atom_type_to_symbol : Nat → String) (c : List Nat) :
    ∀ (ts : List Nat) (s : String), (∀ t ∈ ts, c.getD t 0 = 0) →
      ts.foldl (fun s t =>
        if c.getD t 0 = 0 then s
        else s ++ atom_type_to_symbol (t + 1) ++ toString (c.getD t 0)) s = s := by
  intro ts
  induction ts with
  | nil => intro s _; rfl
  | cons t ts ih =>
    intro s hz
    simp only [List.foldl_cons, if_pos (hz t (List.mem_cons_self t ts))]
    exact ih s (fun t2 ht2 => hz t2 (List.mem_cons_of_mem t ht2))

theorem molStr_fold_skip_old (atom_type_to_symbol : Nat → String) (c : List Nat) :
    ∀ (ts : List Nat) (s : String), (∀ t ∈ ts, c.getD t 0 = 0) →
      ts.foldl (fun s t =>
        if c.getD t 0 = 0 then s
        else if s = "" then atom_type_to_symbol (t + 1) ++ toString (c.getD t 0)
        else s ++ " " ++ atom_type_to_symbol (t + 1) ++ toString (c.getD t 0)) s
        = s := by
  intro ts
  induction ts with
  | nil => intro s _; rfl
  | cons t ts ih =>
    intro s hz
    simp only [List.foldl_cons, if_pos (hz t (List.mem_cons_self t ts))]
    exact ih s (fun t2 ht2 => hz t2 (List.mem_cons_of_mem t ht2))

/-- A composition with at most one nonzero type count produces the same
formula string under the old (space-separated) and new (concatenated)
builders: with a single group there is no separator to insert. -/
theorem molStrOld_eq_molStr_single (T : Nat) (atom_type_to_symbol : Nat → String)
    (c : List Nat)
    (h : (List.range T).countP (fun t => decide (c.getD t 0 ≠ 0)) ≤ 1) :
    molStrOld T atom_type_to_symbol c = molStr T atom_type_to_symbol c := by
  suffices haux : ∀ ts : List Nat,
      ts.countP (fun t => decide (c.getD t 0 ≠ 0)) ≤ 1 →
      ts.foldl (fun s t =>
        if c.getD t 0 = 0 then s
        else if s = "" then atom_type_to_symbol (t + 1) ++ toString (c.getD t 0)
        else s ++ " " ++ atom_type_to_symbol (t + 1) ++ toString (c.getD t 0)) ""
      = ts.foldl (fun s t =>
        if c.getD t 0 = 0 then s
        else s ++ atom_type_to_symbol (t + 1) ++ toString (c.getD t 0)) "" by
    exact haux (List.range T) h
  intro ts
  induction ts with
  | nil => intro _; rfl
  | cons t ts ih =>
    intro hle
    by_cases ht : c.getD t 0 = 0
    · rw [List.countP_cons_of_neg _ _
        (by simp only [decide_eq_true_eq]; exact fun h2 => h2 ht)] at hle
      simp only [List.foldl_cons, ht, reduceIte]
      exact ih hle
    · have hz : ∀ t2 ∈ ts, c.getD t2 0 = 0 := by
        rw [List.countP_cons_of_pos _ _
          (by simp only [decide_eq_true_eq]; exact ht)] at hle
        have h1 : ts.countP (fun t2 => decide (c.getD t2 0 ≠ 0)) = 0 := by omega
        intro t2 ht2
        have := List.countP_eq_zero.mp h1 t2 ht2
        simpa using this
      simp only [List.foldl_cons, if_neg ht, eq_self_iff_true, if_true]
      rw [molStr_fold_skip_old atom_type_to_symbol c ts _ hz,
        molStr_fold_skip_new atom_type_to_symbol c ts _ hz,
        string_empty_append]

theorem foldl_insert_congr_keys (T : Nat) (atom_type_to_symbol : Nat → String) :
    ∀ (tmp : List (List Nat × Nat)) (d : List (String × Nat)),
      (∀ p ∈ tmp, molStrOld T atom_type_to_symbol p.1
        = molStr T atom_type_to_symbol p.1) →
      tmp.foldl (fun d2 p =>
        dictInsert d2 (molStrOld T atom_type_to_symbol p.1) p.2) d
        = tmp.foldl (fun d2 p =>
            dictInsert d2 (molStr T atom_type_to_symbol p.1) p.2) d := by
  intro tmp
  induction tmp with
  | nil => intro d _; rfl
  | cons p tmp ih =>
    intro d h
    simp only [List.foldl_cons]
    rw [h p (List.mem_cons_self p tmp)]
    exact ih _ (fun q hq => h q (List.mem_cons_of_mem p hq))

/-- Claim C9 (amended): the old and new `count_mols` agree on the
composition tallies and differ only in that the old formula keys join the
per-type groups with a single space; in particular, on any grouping in
which every molecule's composition has a nonzero count for at most one
atom type, the two functions return equal maps. -/
theorem count_mols_old_new_agree_single_type (T : Nat)
    (atom_type_to_symbol : Nat → String) (atomTypes : Nat → Nat)
    (molsList : List (List Nat))
    (h : ∀ mol ∈ molsList,
      (List.range T).countP (fun t =>
        decide ((atomTypeCount T atomTypes mol).getD t 0 ≠ 0)) ≤ 1) :
    count_mols_old T atom_type_to_symbol atomTypes molsList
      = count_mols T atom_type_to_symbol atomTypes molsList := by
  have horigin : ∀ k ∈ (molsCountTmp T atomTypes molsList).map Prod.fst,
      ∃ mol ∈ molsList, atomTypeCount T atomTypes mol = k := by
    intro k hk
    rcases foldl_bump_keys (atomTypeCount T atomTypes) molsList [] k hk with h2 | h2
    · simp at h2
    · exact h2
  have hkeys : ∀ p ∈ molsCountTmp T atomTypes molsList,
      molStrOld T atom_type_to_symbol p.1 = molStr T atom_type_to_symbol p.1 := by
    intro p hp
    rcases horigin p.1 (List.mem_map.mpr ⟨p, hp, rfl⟩) with ⟨mol, hmol, he⟩
    rw [← he]
    exact molStrOld_eq_molStr_single T atom_type_to_symbol _ (h mol hmol)
  exact foldl_insert_congr_keys T atom_type_to_symbol
    (molsCountTmp T atomTypes molsList) [] hkeys

/-- Witness for C9 (amended): two single-atom molecules of types 1 and 2;
both versions return the same map. -/
theorem count_mols_old_new_agree_single_type_witness :
    count_mols_old 2 (fun t => if t = 1 then "H" else "O")
      (fun i => if i = 0 then 1 else 2) [[0], [1]]
      = count_mols 2 (fun t => if t = 1 then "H" else "O")
        (fun i => if i = 0 then 1 else 2) [[0], [1]] :=
  count_mols_old_new_agree_single_type 2 (fun t => if t = 1 then "H" else "O")
    (fun i => if i = 0 then 1 else 2) [[0], [1]] (by decide)

/-! ## get_edge_index lemmas -/

theorem edge_inner_foldl (i : Nat) :
    ∀ (row : List Nat) (s d : List Nat),
      row.foldl (fun ei2 j =>
        if i < j then (ei2.1 ++ [i], ei2.2 ++ [j]) else ei2) (s, d)
        = (s ++ (row.filter (fun j => decide (i < j))).map (fun _ => i),
           d ++ row.filter (fun j => decide (i < j))) := by
  intro row
  induction row with
  | nil => intro s d; simp
  | cons j row ih =>
    intro s d
    by_cases hij : i < j
    · simp only [List.foldl_cons, if_pos hij]
      rw [ih (s ++ [i]) (d ++ [j]),
        List.filter_cons_of_pos (by simpa using hij)]
      simp [List.append_assoc]
    · simp only [List.foldl_cons, if_neg hij]
      rw [ih s d, List.filter_cons_of_neg (by simpa using hij)]

theorem map_snd_mk_left (i : Nat) :
    ∀ l : List Nat, l.map (Prod.snd ∘ fun j => (i, j)) = l := by
  intro l
  induction l with
  | nil => rfl
  | cons x l ih => simp only [List.map_cons, ih]; rfl

theorem edge_outer_foldl (nl : List (List Nat)) :
    ∀ (is : List Nat) (s d : List Nat),
      is.foldl (fun ei i =>
        (nl.getD i []).foldl (fun ei2 j =>
          if i < j then (ei2.1 ++ [i], ei2.2 ++ [j]) else ei2) ei) (s, d)
        = (s ++ (is.flatMap (fun i =>
            ((nl.getD i []).filter (fun j => decide (i < j))).map
              (fun j => (i, j)))).map Prod.fst,
           d ++ (is.flatMap (fun i =>
            ((nl.getD i []).filter (fun j => decide (i < j))).map
              (fun j => (i, j)))).map Prod.snd) := by
  intro is
  induction is with
  | nil => intro s d; simp
  | cons i is ih =>
    intro s d
    simp only [List.foldl_cons]
    rw [edge_inner_foldl i (nl.getD i []) s d]
    rw [ih (s ++ ((nl.getD i []).filter (fun j => decide (i < j))).map (fun _ => i))
        (d ++ (nl.getD i []).filter (fun j => decide (i < j)))]
    simp only [List.flatMap_cons, List.map_append, List.map_map,
      List.append_assoc]
    rw [show List.map (Prod.fst ∘ fun j : Nat => (i, j))
        ((nl.getD i []).filter (fun j => decide (i < j)))
        = List.map (fun _ : Nat => i)
            ((nl.getD i []).filter (fun j => decide (i < j))) from rfl,
      map_snd_mk_left i ((nl.getD i []).filter (fun j => decide (i < j)))]

theorem get_edge_index_eq (n : Nat) (nl : List (List Nat)) :
    get_edge_index n nl
      = ((bondPairs n nl).map Prod.fst, (bondPairs n nl).map Prod.snd) := by
  have h := edge_outer_foldl nl (List.range n) [] []
  simpa [get_edge_index, bondPairs] using h

theorem sum_map_eq_single (g : Nat → Nat) (a : Nat)
    (h0 : ∀ i, i ≠ a → g i = 0) :
    ∀ l : List Nat, l.Nodup → (l.map g).sum = if a ∈ l then g a else 0 := by
  intro l
  induction l with
  | nil => simp
  | cons x l ih =>
    intro hnd
    have hnd' := List.nodup_cons.mp hnd
    rw [List.map_cons, List.sum_cons, ih hnd'.2]
    by_cases hx : x = a
    · subst hx
      rw [if_neg (fun hmem => hnd'.1 hmem), if_pos (List.mem_cons_self x l),
        Nat.add_zero]
    · rw [h0 x hx, Nat.zero_add]
      by_cases hmem : a ∈ l
      · rw [if_pos hmem, if_pos (List.mem_cons_of_mem x hmem)]
      · rw [if_neg hmem, if_neg (fun hm => by
          rcases List.mem_cons.mp hm with h | h
          · exact hx h.symm
          · exact hmem h)]

theorem bondPairs_count (n : Nat) (nl : List (List Nat)) (hlen : nl.length = n)
    (hnodup : ∀ i < n, (nl.getD i []).Nodup) (p : Nat × Nat) :
    (bondPairs n nl).count p
      = if p.1 < p.2 ∧ p.2 ∈ nl.getD p.1 [] then 1 else 0 := by
  obtain ⟨a, b⟩ := p
  show (bondPairs n nl).count (a, b) = if a < b ∧ b ∈ nl.getD a [] then 1 else 0
  rw [bondPairs, List.count_flatMap]
  have h0 : ∀ i, i ≠ a → List.count (a, b)
      (((nl.getD i []).filter (fun j => decide (i < j))).map (fun j => (i, j)))
      = 0 := by
    intro i hia
    rw [List.count_eq_zero]
    intro hmem
    rcases List.mem_map.mp hmem with ⟨j, _, hj⟩
    have : i = a := by simpa using congrArg Prod.fst hj
    exact hia this
  have hsum := sum_map_eq_single
    (fun i => List.count (a, b)
      (((nl.getD i []).filter (fun j => decide (i < j))).map (fun j => (i, j))))
    a h0 (List.range n) (List.nodup_range n)
  rw [show List.map (List.count (a, b) ∘ fun i =>
      ((nl.getD i []).filter (fun j => decide (i < j))).map (fun j => (i, j)))
      (List.range n)
      = List.map (fun i => List.count (a, b)
          (((nl.getD i []).filter (fun j => decide (i < j))).map
            (fun j => (i, j)))) (List.range n) from rfl, hsum]
  by_cases han : a ∈ List.range n
  · rw [if_pos han]
    have haln : a < n := List.mem_range.mp han
    show List.count (a, b)
        (((nl.getD a []).filter (fun j => decide (a < j))).map (fun j => (a, j)))
      = if a < b ∧ b ∈ nl.getD a [] then 1 else 0
    have e1 : List.count (a, b)
        (((nl.getD a []).filter (fun j => decide (a < j))).map (fun j => (a, j)))
        = ((nl.getD a []).filter (fun j => decide (a < j))).countP
            (fun j => (a, j) == (a, b)) :=
      List.countP_map (fun x : Nat × Nat => x == (a, b)) (fun j : Nat => (a, j))
        ((nl.getD a []).filter (fun j => decide (a < j)))
    have e2 : ((nl.getD a []).filter (fun j => decide (a < j))).countP
          (fun j => (a, j) == (a, b))
        = List.count b ((nl.getD a []).filter (fun j => decide (a < j))) := by
      show _ = ((nl.getD a []).filter (fun j => decide (a < j))).countP
        (fun j => j == b)
      rw [List.countP_eq_length_filter, List.countP_eq_length_filter,
        List.filter_congr (fun j _ => ?_)]
      by_cases hj : j = b
      · subst hj; simp
      · have hb1 : ((a, j) == (a, b)) = false := by
          simp [hj]
        have hb2 : (j == b) = false := by simp [hj]
        rw [hb1, hb2]
    rw [e1, e2]
    by_cases hab : a < b
    · rw [List.count_filter (by simpa using hab)]
      by_cases hb : b ∈ nl.getD a []
      · rw [List.count_eq_one_of_mem (hnodup a haln) hb, if_pos ⟨hab, hb⟩]
      · rw [List.count_eq_zero.mpr hb, if_neg (fun hc => hb hc.2)]
    · rw [List.count_eq_zero.mpr (fun hc => by
        have := List.mem_filter.mp hc
        exact hab (by simpa using this.2)), if_neg (fun hc => hab hc.1)]
  · rw [if_neg han]
    have hge : n ≤ a := Nat.le_of_not_lt (fun h => han (List.mem_range.mpr h))
    rw [List.getD_eq_default _ _ (hlen ▸ hge)]
    rw [if_neg (fun hc => List.not_mem_nil b hc.2)]

theorem pairwise_of_total {α : Type} (R : α → α → Prop) (h : ∀ a b, R a b) :
    ∀ l : List α, l.Pairwise R := by
  intro l
  induction l with
  | nil => exact List.Pairwise.nil
  | cons a l ih => exact List.Pairwise.cons (fun b _ => h a b) ih

theorem bondPairs_fst_pairwise (nl : List (List Nat)) :
    ∀ is : List Nat, List.Pairwise (· < ·) is →
      List.Pairwise (fun p q : Nat × Nat => p.1 ≤ q.1)
        (is.flatMap (fun i =>
          ((nl.getD i []).filter (fun j => decide (i < j))).map
            (fun j => (i, j)))) := by
  intro is
  induction is with
  | nil => intro _; simp
  | cons i is ih =>
    intro hp
    have hp' := List.pairwise_cons.mp hp
    rw [List.flatMap_cons, List.pairwise_append]
    refine ⟨?_, ih hp'.2, ?_⟩
    · rw [List.pairwise_map]
      exact pairwise_of_total _ (fun x y => le_refl i) _
    · intro x hx y hy
      rcases List.mem_map.mp hx with ⟨j, _, hxj⟩
      rcases List.mem_flatMap.mp hy with ⟨i2, hi2, hyi2⟩
      rcases List.mem_map.mp hyi2 with ⟨j2, _, hyj2⟩
      rw [← hxj, ← hyj2]
      exact le_of_lt (hp'.1 i2 hi2)

/-- Claim C6: for a symmetric, self-loop-free neighbor list (sets of
neighbors, hence no duplicate entries), `get_edge_index` returns two
equal-length integer sequences in which every unordered bonded pair
appears exactly once as (min, max) and nothing else appears — the count of
any candidate pair (i, j) in the zipped output is 1 when i < j and j is a
neighbor of i, and 0 otherwise — and the source sequence is ordered by
ascending atom index. -/
theorem get_edge_index_spec (n : Nat) (nl : List (List Nat))
    (hlen : nl.length = n)
    (hsym : ∀ i < n, ∀ j ∈ nl.getD i [], i ∈ nl.getD j [])
    (hloop : ∀ i < n, i ∉ nl.getD i [])
    (hnodup : ∀ i < n, (nl.getD i []).Nodup) :
    (get_edge_index n nl).1.length = (get_edge_index n nl).2.length ∧
    (∀ p : Nat × Nat,
      ((get_edge_index n nl).1.zip (get_edge_index n nl).2).count p
        = if p.1 < p.2 ∧ p.2 ∈ nl.getD p.1 [] then 1 else 0) ∧
    List.Pairwise (· ≤ ·) (get_edge_index n nl).1 := by
  rw [get_edge_index_eq n nl]
  refine ⟨by simp, ?_, ?_⟩
  · intro p
    have hzip : ((bondPairs n nl).map Prod.fst).zip ((bondPairs n nl).map Prod.snd)
        = bondPairs n nl := by
      rw [List.zip_map']
      simp
    rw [hzip]
    exact bondPairs_count n nl hlen hnodup p
  · exact List.pairwise_map.mpr
      (bondPairs_fst_pairwise nl (List.range n) (List.pairwise_lt_range n))

/-- Witness for C6: three atoms, atom 0 bonded to atoms 1 and 2. -/
theorem get_edge_index_spec_witness :
    (get_edge_index 3 [[1, 2], [0], [0]]).1.length
      = (get_edge_index 3 [[1, 2], [0], [0]]).2.length ∧
    (∀ p : Nat × Nat,
      ((get_edge_index 3 [[1, 2], [0], [0]]).1.zip
        (get_edge_index 3 [[1, 2], [0], [0]]).2).count p
        = if p.1 < p.2 ∧ p.2 ∈ ([[1, 2], [0], [0]] : List (List Nat)).getD p.1 []
          then 1 else 0) ∧
    List.Pairwise (· ≤ ·) (get_edge_index 3 [[1, 2], [0], [0]]).1 :=
  get_edge_index_spec 3 [[1, 2], [0], [0]] rfl (by decide) (by decide) (by decide)
